import Mathlib

/-!
Shallow embedding of the dmidecode output parser (src/dmidecode.go).

The Go file defines a DMI struct holding Data (a map from handle strings to
records, each record a map from attribute name to attribute value) and the
functions ParseDmidecode, GenericSearchBy, SearchByName, SearchByType.

Go maps are modelled as association lists with unique keys (assignment
replaces the value at an existing key, otherwise appends); reading a missing
key yields the zero value "". Go regexp matching (package regexp, Compile,
leftmost-first semantics as documented for RE2 with Perl-style submatches)
is modelled by a small backtracking matcher over a list of items, each item
a literal or a greedy one-or-more repetition of a character class, which is
exactly the shape of the four patterns compiled by the source:
  handleRegex  : ^Handle\s+(.+),\s+DMI\s+type\s+(\d+),\s+(\d+)\s+bytes$
  inBlockRegex : ^\t\t(.+)$
  recordRegex  : \t(.+):\s+(.+)$      (unanchored at the left)
  recordRegex2 : \t(.+):$             (unanchored at the left)
Greedy repetition is realised by trying the longest repetition first and
backtracking to shorter ones; unanchored patterns try the leftmost start
position first. The character classes are those of RE2: the dot is any
character except newline, the class backslash-s is [tab newline formfeed
carriage-return space], the class backslash-d is [0-9].
-/

/-- Go strings.Split on a character list: split around each non-overlapping
occurrence of the (non-empty) separator, scanning left to right. The fuel
argument keeps the recursion structural; every step consumes at least one
character, so fuel equal to the length of the list is enough and the
out-of-fuel branch is never reached from goSplitChars. -/
def goSplitAux (sep : List Char) : Nat → List Char → List (List Char)
  | _, [] => [[]]
  | 0, c :: cs => [c :: cs]
  | fuel + 1, c :: cs =>
      if sep ≠ [] ∧ sep.isPrefixOf (c :: cs) then
        [] :: goSplitAux sep fuel ((c :: cs).drop sep.length)
      else
        match goSplitAux sep fuel cs with
        | [] => [[c]]
        | p :: ps => (c :: p) :: ps

/-- Go strings.Split on a character list. -/
def goSplitChars (sep cs : List Char) : List (List Char) :=
  goSplitAux sep cs.length cs

/-- Go strings.Split for strings. -/
def goSplit (s sep : String) : List String :=
  (goSplitChars sep.data s.data).map (fun l => String.mk l)

/-- RE2 dot: any character except newline. -/
def isDotChar (c : Char) : Bool := c != '\n'

/-- RE2 whitespace class. -/
def isSpaceChar (c : Char) : Bool :=
  c == '\t' || c == '\n' || c == '\x0c' || c == '\r' || c == ' '

/-- RE2 digit class. -/
def isDigitChar (c : Char) : Bool := '0' ≤ c && c ≤ '9'

/-- One item of a regular pattern: a literal, or a greedy one-or-more
repetition of a character class, optionally capturing. -/
inductive RItem where
  | lit : List Char → RItem
  | plus : (Char → Bool) → Bool → RItem

/-- Backtracking helper for a greedy one-or-more repetition: try consuming
n characters first, then fewer, down to one. The caller passes the length
of the maximal class-satisfying run, so every tried amount lies inside it. -/
def tryPlus (f : List Char → Option (List (List Char))) (cap : Bool)
    (cs : List Char) : Nat → Option (List (List Char))
  | 0 => none
  | n + 1 =>
      match f (cs.drop (n + 1)) with
      | some gs => some (if cap then cs.take (n + 1) :: gs else gs)
      | none => tryPlus f cap cs n

/-- Match a list of items against the whole character list (all four source
patterns end with the end-of-text anchor, so a match must consume the rest
of the line), returning the list of captured groups. -/
def matchItems : List RItem → List Char → Option (List (List Char))
  | [], cs => if cs.isEmpty then some [] else none
  | RItem.lit l :: rest, cs =>
      if l.isPrefixOf cs then matchItems rest (cs.drop l.length) else none
  | RItem.plus cls cap :: rest, cs =>
      tryPlus (matchItems rest) cap cs (cs.takeWhile cls).length

/-- Leftmost-first search for a left-unanchored pattern: try each start
position from the left. -/
def findFrom (items : List RItem) : List Char → Option (List (List Char))
  | [] => matchItems items []
  | c :: cs =>
      match matchItems items (c :: cs) with
      | some gs => some gs
      | none => findFrom items cs

/-- Items of handleRegex. -/
def handleItems : List RItem :=
  [RItem.lit "Handle".data, RItem.plus isSpaceChar false,
   RItem.plus isDotChar true, RItem.lit [','], RItem.plus isSpaceChar false,
   RItem.lit "DMI".data, RItem.plus isSpaceChar false, RItem.lit "type".data,
   RItem.plus isSpaceChar false, RItem.plus isDigitChar true, RItem.lit [','],
   RItem.plus isSpaceChar false, RItem.plus isDigitChar true,
   RItem.plus isSpaceChar false, RItem.lit "bytes".data]

/-- handleRegex.FindStringSubmatch, returning the three captured groups. -/
def handleMatch (line : String) : Option (String × String × String) :=
  match matchItems handleItems line.data with
  | some [g1, g2, g3] => some (String.mk g1, String.mk g2, String.mk g3)
  | _ => none

/-- Items of inBlockRegex. -/
def inBlockItems : List RItem :=
  [RItem.lit ['\t', '\t'], RItem.plus isDotChar true]

/-- inBlockRegex.FindStringSubmatch, returning the captured group. -/
def inBlockMatch (line : String) : Option String :=
  match matchItems inBlockItems line.data with
  | some [g] => some (String.mk g)
  | _ => none

/-- Items of recordRegex. -/
def recordItems : List RItem :=
  [RItem.lit ['\t'], RItem.plus isDotChar true, RItem.lit [':'],
   RItem.plus isSpaceChar false, RItem.plus isDotChar true]

/-- recordRegex.FindStringSubmatch, returning the two captured groups. -/
def recordMatch (line : String) : Option (String × String) :=
  match findFrom recordItems line.data with
  | some [g1, g2] => some (String.mk g1, String.mk g2)
  | _ => none

/-- Items of recordRegex2. -/
def record2Items : List RItem :=
  [RItem.lit ['\t'], RItem.plus isDotChar true, RItem.lit [':']]

/-- recordRegex2.FindStringSubmatch, returning the captured group. -/
def record2Match (line : String) : Option String :=
  match findFrom record2Items line.data with
  | some [g] => some (String.mk g)
  | _ => none

/-- A Go map[string]string, as an association list with unique keys. -/
abbrev Rec := List (String × String)

/-- The DMI Data field, map[string]map[string]string. -/
abbrev Table := List (String × Rec)

/-- Go map read. -/
def lookupA {α : Type} : List (String × α) → String → Option α
  | [], _ => none
  | (k1, v1) :: m, k => if k1 = k then some v1 else lookupA m k

/-- Go map assignment: replace the value at an existing key, else append. -/
def setA {α : Type} : List (String × α) → String → α → List (String × α)
  | [], k, v => [(k, v)]
  | (k1, v1) :: m, k, v =>
      if k1 = k then (k, v) :: m else (k1, v1) :: setA m k v

/-- Go map read with the zero value for a missing key. -/
def getA (m : Rec) (k : String) : String := (lookupA m k).getD ""

/-- The mutable locals of the per-record scan loop, plus the record map
being filled in (the Go code writes through d.Data at the fixed handle of
the current block; only that one record is touched by the loop). -/
structure ScanSt where
  inBlockElement : String
  inBlockList : String
  recMap : Rec
deriving DecidableEq, Repr

/-- The part of the loop body after the continuation check: try recordRegex
as a key-value attribute line, else recordRegex2 as an array opener, else
drop the line. -/
def normalLine (st : ScanSt) (line : String) : ScanSt :=
  match recordMatch line with
  | some kv => { st with recMap := setA st.recMap kv.1 kv.2 }
  | none =>
      match record2Match line with
      | some k => { st with inBlockElement := k }
      | none => st

/-- One iteration of the scan loop over recordElements[2:]. When inside a
continuation block, a doubly indented line extends inBlockList (the Go code
does not reset inBlockList when a later array opens, only inBlockElement)
and stores it; a non-matching line resets inBlockElement and falls through
to the normal handling of the same line within the same iteration. -/
def processLine (st : ScanSt) (line : String) : ScanSt :=
  if st.inBlockElement ≠ "" then
    match inBlockMatch line with
    | some frag =>
        let newList :=
          if st.inBlockList.length = 0 then frag
          else st.inBlockList ++ "\t\t" ++ frag
        { st with inBlockList := newList,
                  recMap := setA st.recMap st.inBlockElement newList }
    | none => normalLine { st with inBlockElement := "" } line
  else normalLine st line

/-- The record built for one block: seed the fresh map with DMIType and
DMISize from the header groups and DMIName from the verbatim name line,
then run the scan loop over the remaining lines. -/
def scanBlock (ty sz l1 : String) (ls : List String) : Rec :=
  (ls.foldl processLine
    ⟨"", "", setA (setA (setA [] "DMIType" ty) "DMISize" sz) "DMIName" l1⟩).recMap

/-- Continue a block from the result of handleRegex on its first line: no
match discards the block, a match yields the handle and the scanned record. -/
def blockSeeded :
    Option (String × String × String) → String → List String →
      Option (String × Rec)
  | none, _, _ => none
  | some (h, ty, sz), l1, ls => some (h, scanBlock ty sz l1 ls)

/-- Process the line split of one block: fewer than 3 lines discards it,
otherwise the header line is tried and the rest of the lines are scanned. -/
def blockFromLines : List String → Option (String × Rec)
  | l0 :: l1 :: l2 :: rest => blockSeeded (handleMatch l0) l1 (l2 :: rest)
  | _ => none

/-- Process one block (one element of the split on the double newline):
skip it when it has fewer than 3 lines or its first line fails handleRegex;
otherwise return the handle together with the record built by seeding
DMIType, DMISize, DMIName and scanning the remaining lines. The record
content depends only on the block, because the Go code starts from a fresh
empty map for the handle of the block. -/
def blockRecord (record : String) : Option (String × Rec) :=
  blockFromLines (goSplit record "\n")

/-- The handle a block would store under, if any. -/
def blockHandle (record : String) : Option String :=
  (blockRecord record).map (fun p => p.1)

/-- Effect of one block on the table: either no change, or assignment of
the freshly built record at its handle. -/
def processBlock (t : Table) (record : String) : Table :=
  match blockRecord record with
  | none => t
  | some hr => setA t hr.1 hr.2

/-- The whole scan of ParseDmidecode over the table: split the output on
double newlines and fold the blocks over the incoming Data map. -/
def runParse (data : Table) (output : String) : Table :=
  (goSplit output "\n\n").foldl processBlock data

/-- The DMI struct. -/
structure DMI where
  Data : Table
  Binary : String
deriving DecidableEq, Repr

/-- The dmidecode binary name constant. -/
def DMIDecodeBinary : String := "dmidecode"

/-- The New constructor: empty Data map, default binary name. -/
def New : DMI := { Data := [], Binary := DMIDecodeBinary }

/-- The EmptyResult error message of ParseDmidecode. -/
def emptyResultErr : String := "unable to parse 'dmidecode' output"

/-- ParseDmidecode as a state transformer on the DMI receiver: mutate Data
by the scan, then report the error when the resulting map is empty. -/
def ParseDmidecode (d : DMI) (output : String) : DMI × Option String :=
  ({ d with Data := runParse d.Data output },
   if (runParse d.Data output).length = 0 then some emptyResultErr else none)

/-- The loop of GenericSearchBy: first record, in table order, whose value
at the attribute (zero value "" when absent) equals the wanted value. -/
def searchTable : Table → String → String → Option Rec
  | [], _, _ => none
  | (_, r) :: t, param, value =>
      if getA r param = value then some r else searchTable t param value

/-- The NotInitialized error message of GenericSearchBy. -/
def notInitializedErr : String := "DMI data is empty; make sure to .Run() first"

/-- GenericSearchBy as a state transformer on the DMI receiver: error when
Data is empty, else the first matching record (none stands for the Go nil
map, some [] for the empty non-nil map returned when nothing matches). -/
def GenericSearchBy (d : DMI) (param value : String) :
    DMI × (Option Rec × Option String) :=
  if d.Data.length = 0 then (d, (none, some notInitializedErr))
  else
    match searchTable d.Data param value with
    | some r => (d, (some r, none))
    | none => (d, (some [], none))

/-- SearchByName: GenericSearchBy on the DMIName attribute. -/
def SearchByName (d : DMI) (name : String) :
    DMI × (Option Rec × Option String) :=
  GenericSearchBy d "DMIName" name

/-- SearchByType: GenericSearchBy on the DMIType attribute, with the wanted
type rendered in decimal as by strconv.Itoa. -/
def SearchByType (d : DMI) (id : Int) :
    DMI × (Option Rec × Option String) :=
  GenericSearchBy d "DMIType" (toString id)

/-- A Boolean test that a key is none of the three reserved attribute names. -/
def notReservedKeyB (k : String) : Bool :=
  k ≠ "DMIType" && k ≠ "DMISize" && k ≠ "DMIName"

/-- A line is safe for the reserved attributes when neither pattern it can
match stores under a reserved key. -/
def lineSafeB (l : String) : Bool :=
  (match recordMatch l with
   | some kv => notReservedKeyB kv.1
   | none => true) &&
  (match record2Match l with
   | some k => notReservedKeyB k
   | none => true)

/-- A record holds all three reserved attribute keys. -/
def hasReservedKeys (r : Rec) : Prop :=
  (lookupA r "DMIType").isSome = true ∧ (lookupA r "DMISize").isSome = true ∧
    (lookupA r "DMIName").isSome = true

/-- A non-empty string of decimal digits. -/
def isDigitString (s : String) : Prop :=
  s ≠ "" ∧ s.data.all isDigitChar = true

instance (r : Rec) : Decidable (hasReservedKeys r) := by
  unfold hasReservedKeys
  infer_instance

instance (s : String) : Decidable (isDigitString s) := by
  unfold isDigitString
  infer_instance

/-! ### Lemmas about the association-list map model -/

theorem lookupA_setA_self {α : Type} (m : List (String × α)) (k : String)
    (v : α) : lookupA (setA m k v) k = some v := by
  induction m with
  | nil => simp [setA, lookupA]
  | cons p m ih =>
      obtain ⟨k1, v1⟩ := p
      by_cases h : k1 = k
      · simp [setA, h, lookupA]
      · simp [setA, h, lookupA, ih]

theorem lookupA_setA_ne {α : Type} (m : List (String × α)) (k k' : String)
    (v : α) (h : k' ≠ k) : lookupA (setA m k v) k' = lookupA m k' := by
  induction m with
  | nil => simp [setA, lookupA, Ne.symm h]
  | cons p m ih =>
      obtain ⟨k1, v1⟩ := p
      by_cases h1 : k1 = k
      · subst h1
        simp [setA, lookupA, Ne.symm h]
      · simp only [setA, if_neg h1, lookupA]
        by_cases h2 : k1 = k'
        · simp [h2]
        · simp [h2, ih]

theorem lookupA_setA_isSome {α : Type} (m : List (String × α)) (k k' : String)
    (v : α) (h : (lookupA m k').isSome = true) :
    (lookupA (setA m k v) k').isSome = true := by
  by_cases hk : k' = k
  · subst hk; rw [lookupA_setA_self]; rfl
  · rw [lookupA_setA_ne m k k' v hk]; exact h

theorem mem_setA {α : Type} (m : List (String × α)) (k : String) (v : α) :
    ∀ p ∈ setA m k v, p = (k, v) ∨ p ∈ m := by
  induction m with
  | nil => simp [setA]
  | cons q m ih =>
      obtain ⟨k1, v1⟩ := q
      by_cases h : k1 = k
      · intro p hp
        simp only [setA, if_pos h] at hp
        rcases List.mem_cons.mp hp with hp1 | hp1
        · exact Or.inl hp1
        · exact Or.inr (List.mem_cons_of_mem _ hp1)
      · intro p hp
        simp only [setA, if_neg h] at hp
        rcases List.mem_cons.mp hp with hp1 | hp1
        · exact Or.inr (hp1 ▸ List.mem_cons_self _ _)
        · rcases ih p hp1 with h2 | h2
          · exact Or.inl h2
          · exact Or.inr (List.mem_cons_of_mem _ h2)

/-! ### Lemmas about the search loop -/

theorem searchTable_sound (t : Table) (param value : String) (r : Rec)
    (h : searchTable t param value = some r) : getA r param = value := by
  induction t with
  | nil => simp [searchTable] at h
  | cons p t ih =>
      obtain ⟨k1, r1⟩ := p
      by_cases hm : getA r1 param = value
      · simp only [searchTable, if_pos hm] at h
        cases h
        exact hm
      · simp only [searchTable, if_neg hm] at h
        exact ih h

theorem searchTable_none (t : Table) (param value : String)
    (h : ∀ p ∈ t, getA p.2 param ≠ value) :
    searchTable t param value = none := by
  induction t with
  | nil => rfl
  | cons p t ih =>
      obtain ⟨k1, r1⟩ := p
      have h1 : getA r1 param ≠ value := h (k1, r1) (List.mem_cons_self _ _)
      simp only [searchTable, if_neg h1]
      exact ih (fun q hq => h q (List.mem_cons_of_mem _ hq))

theorem searchTable_isSome (t : Table) (param value : String) (p : String × Rec)
    (hp : p ∈ t) (hm : getA p.2 param = value) :
    ∃ r, searchTable t param value = some r ∧ getA r param = value := by
  induction t with
  | nil => cases hp
  | cons q t ih =>
      obtain ⟨k1, r1⟩ := q
      by_cases h1 : getA r1 param = value
      · exact ⟨r1, by simp [searchTable, h1], h1⟩
      · rcases List.mem_cons.mp hp with h2 | h2
        · exact absurd (by rw [h2] at hm; exact hm) h1
        · rcases ih h2 with ⟨r, hr, hgr⟩
          exact ⟨r, by simp [searchTable, h1, hr], hgr⟩

/-! ### Lemmas about the block fold -/

theorem ParseDmidecode_data (d : DMI) (out : String) :
    (ParseDmidecode d out).1.Data = runParse d.Data out := rfl

theorem foldl_processBlock_none (bs : List String) (t : Table)
    (h : ∀ b ∈ bs, blockRecord b = none) : bs.foldl processBlock t = t := by
  induction bs generalizing t with
  | nil => rfl
  | cons b bs ih =>
      have hb : blockRecord b = none := h b (List.mem_cons_self _ _)
      simp only [List.foldl_cons, processBlock, hb]
      exact ih t (fun b' hb' => h b' (List.mem_cons_of_mem _ hb'))

theorem lookupA_foldl_no_handle (bs : List String) (t : Table) (h : String)
    (hn : ∀ b ∈ bs, blockHandle b ≠ some h) :
    lookupA (bs.foldl processBlock t) h = lookupA t h := by
  induction bs generalizing t with
  | nil => rfl
  | cons b bs ih =>
      simp only [List.foldl_cons]
      rw [ih (processBlock t b)
        (fun b' hb' => hn b' (List.mem_cons_of_mem _ hb'))]
      have hb := hn b (List.mem_cons_self _ _)
      unfold processBlock
      cases hr : blockRecord b with
      | none => rfl
      | some p =>
          have hne : p.1 ≠ h := by
            intro he
            exact hb (by simp [blockHandle, hr, he])
          exact lookupA_setA_ne t p.1 h p.2 (Ne.symm hne)

/-! ### Lemmas about the pattern matcher -/

/-- The character classes of the capturing items of a pattern, in order. -/
def capClasses : List RItem → List (Char → Bool)
  | [] => []
  | RItem.lit _ :: rest => capClasses rest
  | RItem.plus cls true :: rest => cls :: capClasses rest
  | RItem.plus _ false :: rest => capClasses rest

theorem tryPlus_some (f : List Char → Option (List (List Char)))
    (cap : Bool) (cs : List Char) :
    ∀ n gs, tryPlus f cap cs n = some gs →
      ∃ m gs0, 1 ≤ m ∧ m ≤ n ∧ f (cs.drop m) = some gs0 ∧
        gs = if cap then cs.take m :: gs0 else gs0 := by
  intro n
  induction n with
  | zero => intro gs h; cases h
  | succ n ih =>
      intro gs h
      unfold tryPlus at h
      cases hf : f (cs.drop (n + 1)) with
      | some gs0 =>
          rw [hf] at h
          cases h
          exact ⟨n + 1, gs0, Nat.succ_le_succ (Nat.zero_le n), Nat.le_refl _,
            hf, rfl⟩
      | none =>
          rw [hf] at h
          rcases ih gs h with ⟨m, gs0, h1, h2, h3, h4⟩
          exact ⟨m, gs0, h1, Nat.le_succ_of_le h2, h3, h4⟩

theorem matchItems_caps :
    ∀ (items : List RItem) (cs : List Char) (gs : List (List Char)),
      matchItems items cs = some gs →
      List.Forall₂ (fun cls (g : List Char) => g ≠ [] ∧ g.all cls = true)
        (capClasses items) gs := by
  intro items
  induction items with
  | nil =>
      intro cs gs h
      unfold matchItems at h
      by_cases hc : cs.isEmpty
      · rw [if_pos hc] at h
        cases h
        exact List.Forall₂.nil
      · rw [if_neg hc] at h
        cases h
  | cons it rest ih =>
      intro cs gs h
      cases it with
      | lit l =>
          unfold matchItems at h
          by_cases hp : l.isPrefixOf cs
          · rw [if_pos hp] at h
            exact ih _ _ h
          · rw [if_neg hp] at h
            cases h
      | plus cls cap =>
          unfold matchItems at h
          rcases tryPlus_some (matchItems rest) cap cs _ gs h with
            ⟨m, gs0, h1, h2, h3, h4⟩
          have htail := ih _ _ h3
          cases cap with
          | false =>
              simp at h4
              subst h4
              exact htail
          | true =>
              simp at h4
              subst h4
              have hcs : cs ≠ [] := by
                intro hnil
                rw [hnil] at h2
                have h0 : (List.takeWhile cls ([] : List Char)).length = 0 := rfl
                omega
              refine List.Forall₂.cons ⟨?_, ?_⟩ htail
              · intro hnil2
                rcases List.take_eq_nil_iff.mp hnil2 with h0 | h0
                · omega
                · exact hcs h0
              · rcases List.takeWhile_prefix (l := cs) cls with ⟨tl, htl⟩
                have htake : cs.take m = (cs.takeWhile cls).take m := by
                  conv_lhs => rw [← htl]
                  exact List.take_append_of_le_length h2
                rw [List.all_eq_true]
                intro x hx
                rw [htake] at hx
                exact List.mem_takeWhile_imp (List.take_subset _ _ hx)

/-- On a successful handleRegex match, the second and third groups are
non-empty digit strings: they come from the two digit-class repetitions. -/
theorem handleMatch_digits (l h ty sz : String)
    (hm : handleMatch l = some (h, ty, sz)) :
    isDigitString ty ∧ isDigitString sz := by
  unfold handleMatch at hm
  cases hmi : matchItems handleItems l.data with
  | none => rw [hmi] at hm; cases hm
  | some gs =>
      rw [hmi] at hm
      have hcaps := matchItems_caps handleItems l.data gs hmi
      have hcls : capClasses handleItems =
          [isDotChar, isDigitChar, isDigitChar] := rfl
      rw [hcls] at hcaps
      rcases hcaps with _ | ⟨hg1, hcaps⟩
      rcases hcaps with _ | ⟨hg2, hcaps⟩
      rcases hcaps with _ | ⟨hg3, hcaps⟩
      rcases hcaps
      cases hm
      constructor
      · exact ⟨fun hh => hg2.1 (congrArg String.data hh), hg2.2⟩
      · exact ⟨fun hh => hg3.1 (congrArg String.data hh), hg3.2⟩

/-! ### Lemmas about the per-record scan -/

theorem normalLine_preserves (st : ScanSt) (l : String)
    (hl : lineSafeB l = true) :
    ((normalLine st l).inBlockElement = st.inBlockElement ∨
      notReservedKeyB (normalLine st l).inBlockElement = true) ∧
    ∀ rk, (rk = "DMIType" ∨ rk = "DMISize" ∨ rk = "DMIName") →
      lookupA (normalLine st l).recMap rk = lookupA st.recMap rk := by
  unfold lineSafeB at hl
  rw [Bool.and_eq_true] at hl
  unfold normalLine
  cases h1 : recordMatch l with
  | some kv =>
      rw [h1] at hl
      have hk : notReservedKeyB kv.1 = true := hl.1
      simp only [notReservedKeyB, Bool.and_eq_true, decide_eq_true_eq] at hk
      refine ⟨Or.inl rfl, ?_⟩
      intro rk hrk
      have hne : rk ≠ kv.1 := by
        rcases hrk with h | h | h <;> subst h <;> exact fun he => by
          first
          | exact hk.1.1 he.symm
          | exact hk.1.2 he.symm
          | exact hk.2 he.symm
      exact lookupA_setA_ne st.recMap kv.1 rk kv.2 hne
  | none =>
      cases h2 : record2Match l with
      | some k =>
          rw [h1, h2] at hl
          exact ⟨Or.inr hl.2, fun rk _ => rfl⟩
      | none => exact ⟨Or.inl rfl, fun rk _ => rfl⟩

theorem processLine_preserves (st : ScanSt) (l : String)
    (hinv : st.inBlockElement = "" ∨ notReservedKeyB st.inBlockElement = true)
    (hl : lineSafeB l = true) :
    ((processLine st l).inBlockElement = "" ∨
      notReservedKeyB (processLine st l).inBlockElement = true) ∧
    ∀ rk, (rk = "DMIType" ∨ rk = "DMISize" ∨ rk = "DMIName") →
      lookupA (processLine st l).recMap rk = lookupA st.recMap rk := by
  by_cases he : st.inBlockElement = ""
  · simp only [processLine, he, ne_eq, not_true_eq_false, if_false]
    rcases normalLine_preserves st l hl with ⟨h1, h2⟩
    refine ⟨?_, h2⟩
    rcases h1 with h1 | h1
    · exact Or.inl (h1.trans he)
    · exact Or.inr h1
  · have hres : notReservedKeyB st.inBlockElement = true := hinv.resolve_left he
    simp only [processLine, he, ne_eq, not_false_eq_true, if_true]
    cases hib : inBlockMatch l with
    | some frag =>
        simp only [notReservedKeyB, Bool.and_eq_true, decide_eq_true_eq] at hres
        refine ⟨Or.inr ?_, ?_⟩
        · simp only [notReservedKeyB, Bool.and_eq_true, decide_eq_true_eq]
          exact hres
        · intro rk hrk
          have hne : rk ≠ st.inBlockElement := by
            rcases hrk with h | h | h <;> subst h <;> exact fun hh => by
              first
              | exact hres.1.1 hh.symm
              | exact hres.1.2 hh.symm
              | exact hres.2 hh.symm
          exact lookupA_setA_ne st.recMap st.inBlockElement rk _ hne
    | none =>
        rcases normalLine_preserves ⟨"", st.inBlockList, st.recMap⟩ l hl with
          ⟨h1, h2⟩
        exact ⟨h1.imp_left id, h2⟩

theorem scan_preserves_reserved (ls : List String) (st : ScanSt)
    (hinv : st.inBlockElement = "" ∨ notReservedKeyB st.inBlockElement = true)
    (hsafe : ∀ l ∈ ls, lineSafeB l = true) :
    ∀ rk, (rk = "DMIType" ∨ rk = "DMISize" ∨ rk = "DMIName") →
      lookupA ((ls.foldl processLine st).recMap) rk = lookupA st.recMap rk := by
  induction ls generalizing st with
  | nil => exact fun rk _ => rfl
  | cons l ls ih =>
      intro rk hrk
      rcases processLine_preserves st l hinv
        (hsafe l (List.mem_cons_self _ _)) with ⟨hinv2, hpres⟩
      rw [List.foldl_cons,
        ih (processLine st l) hinv2
          (fun l' hl' => hsafe l' (List.mem_cons_of_mem _ hl')) rk hrk]
      exact hpres rk hrk

theorem processLine_recMap_shape (st : ScanSt) (l : String) :
    (processLine st l).recMap = st.recMap ∨
      ∃ k v, (processLine st l).recMap = setA st.recMap k v := by
  have hn : ∀ st' : ScanSt, st'.recMap = st.recMap →
      (normalLine st' l).recMap = st.recMap ∨
        ∃ k v, (normalLine st' l).recMap = setA st.recMap k v := by
    intro st' hst
    unfold normalLine
    cases recordMatch l with
    | some kv => exact Or.inr ⟨kv.1, kv.2, by simp [hst]⟩
    | none =>
        cases record2Match l with
        | some k => exact Or.inl hst
        | none => exact Or.inl hst
  by_cases he : st.inBlockElement = ""
  · simp only [processLine, he, ne_eq, not_true_eq_false, if_false]
    exact hn st rfl
  · simp only [processLine, he, ne_eq, not_false_eq_true, if_true]
    cases inBlockMatch l with
    | some frag => exact Or.inr ⟨st.inBlockElement, _, rfl⟩
    | none => exact hn ⟨"", st.inBlockList, st.recMap⟩ rfl

theorem hasReserved_processLine (st : ScanSt) (l : String)
    (h : hasReservedKeys st.recMap) :
    hasReservedKeys (processLine st l).recMap := by
  rcases processLine_recMap_shape st l with hs | ⟨k, v, hs⟩
  · rw [hs]; exact h
  · rw [hs]
    exact ⟨lookupA_setA_isSome _ _ _ _ h.1, lookupA_setA_isSome _ _ _ _ h.2.1,
      lookupA_setA_isSome _ _ _ _ h.2.2⟩

theorem hasReserved_scan (ls : List String) (st : ScanSt)
    (h : hasReservedKeys st.recMap) :
    hasReservedKeys ((ls.foldl processLine st).recMap) := by
  induction ls generalizing st with
  | nil => exact h
  | cons l ls ih =>
      rw [List.foldl_cons]
      exact ih (processLine st l) (hasReserved_processLine st l h)

theorem scanBlock_hasReserved (ty sz l1 : String) (ls : List String) :
    hasReservedKeys (scanBlock ty sz l1 ls) := by
  unfold scanBlock
  apply hasReserved_scan
  exact ⟨rfl, rfl, rfl⟩

theorem blockRecord_hasReserved (b h : String) (r : Rec)
    (hb : blockRecord b = some (h, r)) : hasReservedKeys r := by
  unfold blockRecord at hb
  rcases hl : goSplit b "\n" with _ | ⟨l0, _ | ⟨l1, _ | ⟨l2, rest⟩⟩⟩ <;>
    rw [hl] at hb <;> simp only [blockFromLines] at hb
  · cases hb
  · cases hb
  · cases hb
  · cases hm : handleMatch l0 with
    | none => rw [hm] at hb; cases hb
    | some hts =>
        obtain ⟨h2, ty, sz⟩ := hts
        rw [hm] at hb
        simp only [blockSeeded, Option.some.injEq, Prod.mk.injEq] at hb
        rw [← hb.2]
        exact scanBlock_hasReserved ty sz l1 (l2 :: rest)

theorem foldl_processBlock_reserved (bs : List String) (t : Table)
    (ht : ∀ p ∈ t, hasReservedKeys p.2) :
    ∀ p ∈ bs.foldl processBlock t, hasReservedKeys p.2 := by
  induction bs generalizing t with
  | nil => exact ht
  | cons b bs ih =>
      rw [List.foldl_cons]
      apply ih
      intro p hp
      unfold processBlock at hp
      cases hb : blockRecord b with
      | none => rw [hb] at hp; exact ht p hp
      | some hr =>
          rw [hb] at hp
          rcases mem_setA t hr.1 hr.2 p hp with h1 | h1
          · rw [h1]
            exact blockRecord_hasReserved b hr.1 hr.2 (by rw [hb])
          · exact ht p h1

theorem lookupA_runParse_last (t : Table) (out : String)
    (pre post : List String) (b h : String) (r : Rec)
    (hsplit : goSplit out "\n\n" = pre ++ b :: post)
    (hb : blockRecord b = some (h, r))
    (hp : ∀ b' ∈ post, blockHandle b' ≠ some h) :
    lookupA (runParse t out) h = some r := by
  unfold runParse
  rw [hsplit, List.foldl_append, List.foldl_cons,
    lookupA_foldl_no_handle post _ h hp]
  show lookupA (processBlock _ b) h = some r
  unfold processBlock
  rw [hb]
  exact lookupA_setA_self _ _ _

/-! ### Claims -/

/-- C1: the claim says a continuation attribute opened by an array-open line
starts with an empty accumulator, so its stored value holds only its own
fragments. The code contradicts this: the accumulator inBlockList is not
reset when a second array opens within the same record, so the second
attribute B receives the fragment a1 of the first attribute A in front of
its own fragment b1. This theorem evaluates the parser on such a record. -/
theorem c1_stale_accumulator_eval :
    runParse []
        "Handle 0x0001, DMI type 1, 27 bytes\nSystem Information\n\tA:\n\t\ta1\n\tB:\n\t\tb1" =
      [("0x0001",
        [("DMIType", "1"), ("DMISize", "27"),
         ("DMIName", "System Information"), ("A", "a1"),
         ("B", "a1\t\tb1")])] ∧
    getA
        [("DMIType", "1"), ("DMISize", "27"),
         ("DMIName", "System Information"), ("A", "a1"),
         ("B", "a1\t\tb1")] "B" ≠ "b1" := by
  decide

/-- C2 counterexample: ParseDmidecode does not create the table fresh. The
second parsed text has exactly one block, with handle 0x0002, and its parse
succeeds, yet the record for handle 0x0001 from the earlier parse of the
same DMI value is still present afterwards. -/
theorem c2_prior_record_survives :
    goSplit "Handle 0x0002, DMI type 2, 10 bytes\nNameB\n\tK: V" "\n\n" =
      ["Handle 0x0002, DMI type 2, 10 bytes\nNameB\n\tK: V"] ∧
    blockHandle "Handle 0x0002, DMI type 2, 10 bytes\nNameB\n\tK: V" =
      some "0x0002" ∧
    (ParseDmidecode
        (ParseDmidecode New
          "Handle 0x0001, DMI type 1, 27 bytes\nNameA\n\tK: V").1
        "Handle 0x0002, DMI type 2, 10 bytes\nNameB\n\tK: V").2 = none ∧
    lookupA
        (ParseDmidecode
          (ParseDmidecode New
            "Handle 0x0001, DMI type 1, 27 bytes\nNameA\n\tK: V").1
          "Handle 0x0002, DMI type 2, 10 bytes\nNameB\n\tK: V").1.Data
        "0x0001" =
      some [("DMIType", "1"), ("DMISize", "27"), ("DMIName", "NameA"),
        ("K", "V")] := by
  decide

/-- C2 amended: ParseDmidecode writes into the existing Data table instead
of replacing it. A handle named by no block of the text keeps its previous
record across the parse, and a handle whose last matching block is b ends
up with exactly the record built from b. -/
theorem c2_per_handle_overwrite :
    ∀ (d : DMI) (out : String) (h : String),
      ((∀ b ∈ goSplit out "\n\n", blockHandle b ≠ some h) →
        lookupA (ParseDmidecode d out).1.Data h = lookupA d.Data h) ∧
      (∀ pre b post r, goSplit out "\n\n" = pre ++ b :: post →
        blockRecord b = some (h, r) →
        (∀ b' ∈ post, blockHandle b' ≠ some h) →
        lookupA (ParseDmidecode d out).1.Data h = some r) := by
  intro d out h
  constructor
  · intro hn
    rw [ParseDmidecode_data]
    exact lookupA_foldl_no_handle _ _ _ hn
  · intro pre b post r hsplit hb hpost
    rw [ParseDmidecode_data]
    exact lookupA_runParse_last d.Data out pre post b h r hsplit hb hpost

/-- C2 witness: a record with a handle absent from the parsed text survives
the parse, and a handle present in the text receives its block record. -/
theorem c2_per_handle_overwrite_witness :
    lookupA
        (ParseDmidecode ⟨[("0x0003", [("DMIName", "Old")])], "dmidecode"⟩
          "Handle 0x0001, DMI type 1, 27 bytes\nNameA\n\tK: V").1.Data
        "0x0003" = some [("DMIName", "Old")] ∧
    lookupA
        (ParseDmidecode New
          "Handle 0x0001, DMI type 1, 27 bytes\nNameA\n\tK: V").1.Data
        "0x0001" =
      some [("DMIType", "1"), ("DMISize", "27"), ("DMIName", "NameA"),
        ("K", "V")] := by
  constructor
  · exact (c2_per_handle_overwrite
      ⟨[("0x0003", [("DMIName", "Old")])], "dmidecode"⟩
      "Handle 0x0001, DMI type 1, 27 bytes\nNameA\n\tK: V" "0x0003").1
      (by decide)
  · exact (c2_per_handle_overwrite New
      "Handle 0x0001, DMI type 1, 27 bytes\nNameA\n\tK: V" "0x0001").2
      [] "Handle 0x0001, DMI type 1, 27 bytes\nNameA\n\tK: V" []
      [("DMIType", "1"), ("DMISize", "27"), ("DMIName", "NameA"), ("K", "V")]
      (by decide) (by decide) (by decide)

/-- C4: parsing the empty string on a fresh DMI yields the EmptyResult
error; parsing any text none of whose blocks matches yields the EmptyResult
error on a fresh DMI; and whenever ParseDmidecode reports no error, the
resulting Data table is non-empty, so a completed parse never hands the
caller a zero-entry table. -/
theorem c4_empty_result :
    ParseDmidecode New "" = (New, some emptyResultErr) ∧
    (∀ out, (∀ b ∈ goSplit out "\n\n", blockRecord b = none) →
      ParseDmidecode New out = (New, some emptyResultErr)) ∧
    ∀ (d : DMI) (out : String), (ParseDmidecode d out).2 = none →
      (ParseDmidecode d out).1.Data ≠ [] := by
  refine ⟨by decide, ?_, ?_⟩
  · intro out h
    have hr : runParse New.Data out = [] := foldl_processBlock_none _ _ h
    unfold ParseDmidecode
    rw [hr]
    rfl
  · intro d out h
    unfold ParseDmidecode at h ⊢
    by_cases h0 : (runParse d.Data out).length = 0
    · rw [if_pos h0] at h
      cases h
    · intro hnil
      apply h0
      have hnil2 : runParse d.Data out = [] := hnil
      rw [hnil2]
      rfl

/-- C4 witness: a text with a single non-matching block gives the error on
the fresh DMI, and a successful parse gives a non-empty table. -/
theorem c4_empty_result_witness :
    ParseDmidecode New "junk" = (New, some emptyResultErr) ∧
    (ParseDmidecode New
      "Handle 0x0001, DMI type 1, 27 bytes\nNameA\n\tK: V").1.Data ≠ [] := by
  constructor
  · exact c4_empty_result.2.1 "junk" (by decide)
  · exact c4_empty_result.2.2 New
      "Handle 0x0001, DMI type 1, 27 bytes\nNameA\n\tK: V" (by decide)

/-- C6: when the scan is inside a continuation block and the line does not
match the doubly indented pattern, the parser resets the block marker and
handles the very same line by the normal rules within the same iteration;
in particular a single-indent key-value line right after continuation lines
is stored as a scalar attribute. -/
theorem c6_continuation_exit_reevaluates :
    ∀ (st : ScanSt) (line : String),
      st.inBlockElement ≠ "" → inBlockMatch line = none →
      processLine st line = normalLine ⟨"", st.inBlockList, st.recMap⟩ line ∧
      ∀ k v, recordMatch line = some (k, v) →
        processLine st line = ⟨"", st.inBlockList, setA st.recMap k v⟩ := by
  intro st line h1 h2
  constructor
  · unfold processLine
    rw [if_pos h1, h2]
  · intro k v h3
    unfold processLine normalLine
    rw [if_pos h1, h2, h3]

/-- C6 witness: after continuation lines for Features, a single-indent
key-value line is stored as a scalar attribute and the block marker is
cleared. -/
theorem c6_continuation_exit_reevaluates_witness :
    processLine ⟨"Features", "f1", [("X", "y")]⟩ "\tKey: val" =
      ⟨"", "f1", [("X", "y"), ("Key", "val")]⟩ := by
  exact (c6_continuation_exit_reevaluates ⟨"Features", "f1", [("X", "y")]⟩
    "\tKey: val" (by decide) (by decide)).2 "Key" "val" (by decide)

/-- C7: a block whose line split has fewer than 3 lines produces no record
and leaves the table unchanged, so it never produces a table entry. -/
theorem c7_short_block_no_entry :
    ∀ (t : Table) (b : String), (goSplit b "\n").length < 3 →
      blockRecord b = none ∧ processBlock t b = t := by
  intro t b h
  have hb : blockRecord b = none := by
    unfold blockRecord
    cases hl : goSplit b "\n" with
    | nil => rfl
    | cons l0 ls =>
        cases ls with
        | nil => rfl
        | cons l1 ls2 =>
            cases ls2 with
            | nil => rfl
            | cons l2 rest =>
                exfalso
                rw [hl] at h
                simp only [List.length_cons] at h
                omega
  refine ⟨hb, ?_⟩
  unfold processBlock
  rw [hb]

/-- C7 witness: a two-line block changes nothing. -/
theorem c7_short_block_no_entry_witness :
    blockRecord "ab\ncd" = none ∧
    processBlock [("a", [])] "ab\ncd" = [("a", [])] := by
  exact c7_short_block_no_entry [("a", [])] "ab\ncd" (by decide)

/-- C9: when several blocks of one input carry the same handle, the final
record for that handle is exactly the record built from the last such block
(blockRecord depends only on that block, because the code replaces the
record for the handle with a fresh map before filling it); attributes of
earlier blocks with the same handle are discarded, never merged. -/
theorem c9_last_duplicate_wins :
    ∀ (d : DMI) (out : String) (pre post : List String) (b h : String)
      (r : Rec),
      goSplit out "\n\n" = pre ++ b :: post →
      blockRecord b = some (h, r) →
      (∀ b' ∈ post, blockHandle b' ≠ some h) →
      lookupA (ParseDmidecode d out).1.Data h = some r := by
  intro d out pre post b h r h1 h2 h3
  rw [ParseDmidecode_data]
  exact lookupA_runParse_last d.Data out pre post b h r h1 h2 h3

/-- C9 witness: two blocks share handle 0x1; the final record is the one of
the second block alone, with no attribute of the first block. -/
theorem c9_last_duplicate_wins_witness :
    lookupA
        (ParseDmidecode New
          "Handle 0x1, DMI type 1, 3 bytes\nA\n\tK: V\n\nHandle 0x1, DMI type 2, 4 bytes\nB\n\tL: W").1.Data
        "0x1" =
      some [("DMIType", "2"), ("DMISize", "4"), ("DMIName", "B"),
        ("L", "W")] := by
  exact c9_last_duplicate_wins New
    "Handle 0x1, DMI type 1, 3 bytes\nA\n\tK: V\n\nHandle 0x1, DMI type 2, 4 bytes\nB\n\tL: W"
    ["Handle 0x1, DMI type 1, 3 bytes\nA\n\tK: V"] []
    "Handle 0x1, DMI type 2, 4 bytes\nB\n\tL: W" "0x1"
    [("DMIType", "2"), ("DMISize", "4"), ("DMIName", "B"), ("L", "W")]
    (by decide) (by decide) (by decide)

/-- C10: the three query functions return the receiver unchanged: the Data
table and the Binary field are identical before and after any query, in the
found, not-found and NotInitialized cases alike. -/
theorem c10_search_preserves_state :
    ∀ (d : DMI) (param value name : String) (id : Int),
      (GenericSearchBy d param value).1 = d ∧
      (GenericSearchBy d param value).1.Data = d.Data ∧
      (GenericSearchBy d param value).1.Binary = d.Binary ∧
      (SearchByName d name).1 = d ∧
      (SearchByType d id).1 = d := by
  intro d param value name id
  have hg : ∀ p v2, (GenericSearchBy d p v2).1 = d := by
    intro p v2
    unfold GenericSearchBy
    by_cases hl : d.Data.length = 0
    · rw [if_pos hl]
    · rw [if_neg hl]
      cases searchTable d.Data p v2 <;> rfl
  exact ⟨hg param value, by rw [hg param value], by rw [hg param value],
    hg "DMIName" name, hg "DMIType" (toString id)⟩

/-- C3 counterexample: the claim reads the header grammar with an arbitrary
type label, but handleRegex requires the fixed literal DMI. A 3-line block
whose first line has exactly the claimed shape with label SMBIOS is
discarded: the parse of that block yields no entry for its handle. -/
theorem c3_arbitrary_label_fails :
    "Handle 0x0001, SMBIOS type 1, 27 bytes" =
      "Handle " ++ "0x0001" ++ ", " ++ "SMBIOS" ++ " type " ++ "1" ++ ", " ++
        "27" ++ " bytes" ∧
    handleMatch "Handle 0x0001, SMBIOS type 1, 27 bytes" = none ∧
    goSplit
        "Handle 0x0001, SMBIOS type 1, 27 bytes\nSystem Information\n\tK: V"
        "\n" =
      ["Handle 0x0001, SMBIOS type 1, 27 bytes", "System Information",
        "\tK: V"] ∧
    runParse []
        "Handle 0x0001, SMBIOS type 1, 27 bytes\nSystem Information\n\tK: V" =
      [] ∧
    lookupA
        (runParse []
          "Handle 0x0001, SMBIOS type 1, 27 bytes\nSystem Information\n\tK: V")
        "0x0001" = none := by
  decide

/-- C3 amended: the header grammar has the fixed literal DMI as its type
label. For every block of at least 3 lines whose first line matches
handleRegex, and whose handle is not reused by a later block, the table
holds an entry for that handle; its DMIType and DMISize are the two digit
groups and its DMIName is line 1 verbatim, provided no later line of the
block stores under a reserved key (such lines would overwrite the seeds).
A block whose first line fails handleRegex is discarded silently: no entry
is added and no error is raised for it. -/
theorem c3_dmi_header_blocks :
    (∀ (d : DMI) (out : String) (pre post : List String)
       (b l0 l1 l2 : String) (rest : List String) (h ty sz : String),
       goSplit out "\n\n" = pre ++ b :: post →
       goSplit b "\n" = l0 :: l1 :: l2 :: rest →
       handleMatch l0 = some (h, ty, sz) →
       (∀ l ∈ l2 :: rest, lineSafeB l = true) →
       (∀ b' ∈ post, blockHandle b' ≠ some h) →
       ∃ r, lookupA (ParseDmidecode d out).1.Data h = some r ∧
         getA r "DMIType" = ty ∧ getA r "DMISize" = sz ∧
         getA r "DMIName" = l1) ∧
    (∀ (t : Table) (b l0 : String) (ls : List String),
       goSplit b "\n" = l0 :: ls → handleMatch l0 = none →
       blockRecord b = none ∧ processBlock t b = t) := by
  constructor
  · intro d out pre post b l0 l1 l2 rest h ty sz hsplit hlines hhm hsafe hpost
    have hb : blockRecord b = some (h, scanBlock ty sz l1 (l2 :: rest)) := by
      unfold blockRecord
      rw [hlines]
      simp only [blockFromLines]
      rw [hhm]
      rfl
    have hpres := scan_preserves_reserved (l2 :: rest)
      ⟨"", "",
        setA (setA (setA [] "DMIType" ty) "DMISize" sz) "DMIName" l1⟩
      (Or.inl rfl) hsafe
    refine ⟨scanBlock ty sz l1 (l2 :: rest), ?_, ?_, ?_, ?_⟩
    · rw [ParseDmidecode_data]
      exact lookupA_runParse_last d.Data out pre post b h _ hsplit hb hpost
    · show (lookupA (scanBlock ty sz l1 (l2 :: rest)) "DMIType").getD "" = ty
      unfold scanBlock
      rw [hpres "DMIType" (Or.inl rfl)]
      rfl
    · show (lookupA (scanBlock ty sz l1 (l2 :: rest)) "DMISize").getD "" = sz
      unfold scanBlock
      rw [hpres "DMISize" (Or.inr (Or.inl rfl))]
      rfl
    · show (lookupA (scanBlock ty sz l1 (l2 :: rest)) "DMIName").getD "" = l1
      unfold scanBlock
      rw [hpres "DMIName" (Or.inr (Or.inr rfl))]
      rfl
  · intro t b l0 ls hl hm
    have hbr : blockRecord b = none := by
      unfold blockRecord
      rw [hl]
      cases ls with
      | nil => rfl
      | cons l1 ls2 =>
          cases ls2 with
          | nil => rfl
          | cons l2 rest =>
              simp only [blockFromLines]
              rw [hm]
              rfl
    refine ⟨hbr, ?_⟩
    unfold processBlock
    rw [hbr]

/-- C3 witness: a matching DMI header block yields an entry whose reserved
attributes come from the header and the name line, and a block with a
non-matching first line leaves the table unchanged. -/
theorem c3_dmi_header_blocks_witness :
    (lookupA
        (ParseDmidecode New
          "Handle 0x0001, DMI type 1, 27 bytes\nSystem Information\n\tManufacturer: Acme").1.Data
        "0x0001").isSome = true ∧
    processBlock [] "Handle 0x0001, SMBIOS type 1, 27 bytes\nX\nY" = [] := by
  constructor
  · obtain ⟨r, hr, -, -, -⟩ := c3_dmi_header_blocks.1 New
      "Handle 0x0001, DMI type 1, 27 bytes\nSystem Information\n\tManufacturer: Acme"
      [] []
      "Handle 0x0001, DMI type 1, 27 bytes\nSystem Information\n\tManufacturer: Acme"
      "Handle 0x0001, DMI type 1, 27 bytes" "System Information"
      "\tManufacturer: Acme" [] "0x0001" "1" "27"
      (by decide) (by decide) (by decide) (by decide) (by decide)
    rw [hr]
    rfl
  · exact (c3_dmi_header_blocks.2 []
      "Handle 0x0001, SMBIOS type 1, 27 bytes\nX\nY"
      "Handle 0x0001, SMBIOS type 1, 27 bytes" ["X", "Y"]
      (by decide) (by decide)).2

/-- C5: GenericSearchBy fails with the NotInitialized error exactly when
the Data table is empty; on a non-empty table it returns the empty non-nil
map and a nil error when no record matches, and a matching record with a
nil error when one does; SearchByName and SearchByType are the two
wrappers on the reserved attributes. -/
theorem c5_generic_search_by :
    ∀ (d : DMI) (param value : String),
      ((GenericSearchBy d param value).2.2.isSome = true ↔ d.Data = []) ∧
      (d.Data = [] →
        GenericSearchBy d param value = (d, (none, some notInitializedErr))) ∧
      ((∀ p ∈ d.Data, getA p.2 param ≠ value) → d.Data ≠ [] →
        GenericSearchBy d param value = (d, (some [], none))) ∧
      (∀ p ∈ d.Data, getA p.2 param = value →
        ∃ r, GenericSearchBy d param value = (d, (some r, none)) ∧
          getA r param = value) ∧
      SearchByName d value = GenericSearchBy d "DMIName" value ∧
      ∀ i : Int, SearchByType d i = GenericSearchBy d "DMIType" (toString i) := by
  intro d param value
  have hlen : d.Data.length = 0 ↔ d.Data = [] := List.length_eq_zero
  refine ⟨?_, ?_, ?_, ?_, rfl, fun i => rfl⟩
  · by_cases hd : d.Data = []
    · unfold GenericSearchBy
      rw [if_pos (hlen.mpr hd)]
      simpa using hd
    · have hne : ¬ d.Data.length = 0 := fun h0 => hd (hlen.mp h0)
      unfold GenericSearchBy
      rw [if_neg hne]
      cases searchTable d.Data param value <;> simpa using hd
  · intro hd
    unfold GenericSearchBy
    rw [if_pos (hlen.mpr hd)]
  · intro hall hne
    unfold GenericSearchBy
    rw [if_neg (fun h0 => hne (hlen.mp h0)),
      searchTable_none d.Data param value hall]
  · intro p hp hm
    rcases searchTable_isSome d.Data param value p hp hm with ⟨r, hr, hgr⟩
    refine ⟨r, ?_, hgr⟩
    have hne : ¬ d.Data.length = 0 := fun h0 => by
      rw [hlen.mp h0] at hp
      cases hp
    unfold GenericSearchBy
    rw [if_neg hne, hr]

/-- C5 witness: on a two-record table the search finds a matching record
with a nil error, returns the empty map and a nil error when nothing
matches, and returns the NotInitialized error on the fresh empty DMI. -/
theorem c5_generic_search_by_witness :
    (GenericSearchBy
        ⟨[("h1", [("DMIName", "Foo")]), ("h2", [("DMIName", "Bar")])],
          "dmidecode"⟩ "DMIName" "Bar").2.2 = none ∧
    GenericSearchBy
        ⟨[("h1", [("DMIName", "Foo")]), ("h2", [("DMIName", "Bar")])],
          "dmidecode"⟩ "DMIName" "Zap" =
      (⟨[("h1", [("DMIName", "Foo")]), ("h2", [("DMIName", "Bar")])],
          "dmidecode"⟩, (some [], none)) ∧
    GenericSearchBy New "DMIName" "Foo" =
      (New, (none, some notInitializedErr)) := by
  refine ⟨?_, ?_, ?_⟩
  · obtain ⟨r, hr, -⟩ := (c5_generic_search_by
      ⟨[("h1", [("DMIName", "Foo")]), ("h2", [("DMIName", "Bar")])],
        "dmidecode"⟩ "DMIName" "Bar").2.2.2.1
      ("h2", [("DMIName", "Bar")]) (by decide) (by decide)
    rw [hr]
  · exact (c5_generic_search_by
      ⟨[("h1", [("DMIName", "Foo")]), ("h2", [("DMIName", "Bar")])],
        "dmidecode"⟩ "DMIName" "Zap").2.2.1 (by decide) (by decide)
  · exact (c5_generic_search_by New "DMIName" "Foo").2.1 rfl

/-- C8 counterexample: the reserved attributes are not always digit
strings. An attribute line reusing the key DMIType overwrites the seeded
digit value with free text. -/
theorem c8_reserved_overwritten :
    runParse [] "Handle 0x0001, DMI type 1, 27 bytes\nName\n\tDMIType: hello" =
      [("0x0001",
        [("DMIType", "hello"), ("DMISize", "27"), ("DMIName", "Name")])] ∧
    getA [("DMIType", "hello"), ("DMISize", "27"), ("DMIName", "Name")]
        "DMIType" = "hello" ∧
    ¬ isDigitString "hello" := by
  refine ⟨by decide, by decide, ?_⟩
  intro hd
  exact absurd hd.2 (by decide)

/-- C8 amended: every record of a table produced by ParseDmidecode carries
the three reserved keys DMIType, DMISize and DMIName (they are seeded at
block start and keys are never removed), provided every record already in
the table carries them, as holds for the fresh DMI; and the header digit
groups are non-empty digit strings. The seeded values can however be
overwritten by later attribute lines reusing a reserved key, so the digit
shape of the stored values is not an invariant. -/
theorem c8_reserved_keys_present :
    (∀ (d : DMI) (out : String),
      (∀ p ∈ d.Data, hasReservedKeys p.2) →
      ∀ p ∈ (ParseDmidecode d out).1.Data, hasReservedKeys p.2) ∧
    (∀ l h ty sz, handleMatch l = some (h, ty, sz) →
      isDigitString ty ∧ isDigitString sz) := by
  constructor
  · intro d out hd
    rw [ParseDmidecode_data]
    exact foldl_processBlock_reserved _ _ hd
  · exact handleMatch_digits

/-- C8 witness: the record parsed from a simple block carries the three
reserved keys, and the header digit groups of its header line are digit
strings. -/
theorem c8_reserved_keys_present_witness :
    hasReservedKeys
      [("DMIType", "1"), ("DMISize", "27"), ("DMIName", "Name"), ("K", "V")] ∧
    (isDigitString "1" ∧ isDigitString "27") := by
  constructor
  · exact c8_reserved_keys_present.1 New
      "Handle 0x0001, DMI type 1, 27 bytes\nName\n\tK: V"
      (fun p hp => absurd hp (List.not_mem_nil p))
      ("0x0001",
        [("DMIType", "1"), ("DMISize", "27"), ("DMIName", "Name"), ("K", "V")])
      (by decide)
  · exact c8_reserved_keys_present.2 "Handle 0x0001, DMI type 1, 27 bytes"
      "0x0001" "1" "27" (by decide)
